import Mathlib

/-!
# Shallow embedding of the squish-rs BC1–BC5 block-compression library

Source files under verification: `src/squish/src/{lib,bc1,bc2,bc3,bc4,bc5}.rs`.
The modules `alpha.rs`, `colourblock.rs`, `colourfit.rs`, `colourset.rs` and `math.rs`
are declared in `lib.rs` but are not part of the provided sources; the definitions for
them below are modelled from the specification (their doc comments say so explicitly).
`f32` arithmetic of the reference is represented by exact rational arithmetic.

Bytes are `ℕ` kept below 256 by construction, buffers are `List ℕ`, fallible operations
(Rust panics: out-of-bounds indexing, failed asserts, zero-sized chunks) return `Option`.
-/

namespace Squish

/-- An RGBA pixel: four unsigned 8-bit channels in fixed order (src: `[u8; 4]`). -/
structure Pixel where
  r : ℕ
  g : ℕ
  b : ℕ
  a : ℕ
deriving DecidableEq, Repr

def zeroPixel : Pixel := ⟨0, 0, 0, 0⟩

/-- src/lib.rs `enum Algorithm`. -/
inductive Algorithm where
  | rangeFit
  | clusterFit
  | iterativeClusterFit
deriving DecidableEq, Repr

/-! ## Exact rational arithmetic

The reference's `f32` arithmetic is modelled by exact rational numbers, kept in a
dedicated canonical-fraction type whose operations are plain structural functions of
`ℤ` and `ℕ` (so every concrete run of the pipeline evaluates by computation). -/

/-- An exact rational in canonical form: a reduced fraction with positive denominator.
Every operation below re-normalises, so structural equality is value equality. -/
structure Q where
  num : ℤ
  den : ℕ
deriving DecidableEq, Repr

/-- Canonicalise `n / d`; every call site has `d ≠ 0`. -/
def Q.norm (n : ℤ) (d : ℕ) : Q :=
  let g := n.natAbs.gcd d
  if g = 0 then ⟨0, 1⟩ else ⟨n / g, d / g⟩

def Q.add (a b : Q) : Q := Q.norm (a.num * b.den + b.num * a.den) (a.den * b.den)

def Q.sub (a b : Q) : Q := Q.norm (a.num * b.den - b.num * a.den) (a.den * b.den)

def Q.mul (a b : Q) : Q := Q.norm (a.num * b.num) (a.den * b.den)

/-- Exact division; division by zero yields 0 (no call site divides by zero). -/
def Q.div (a b : Q) : Q :=
  if b.num = 0 then ⟨0, 1⟩
  else if b.num < 0 then Q.norm (-(a.num * b.den)) (a.den * b.num.natAbs)
  else Q.norm (a.num * b.den) (a.den * b.num.natAbs)

instance : Add Q := ⟨Q.add⟩

instance : Sub Q := ⟨Q.sub⟩

instance : Mul Q := ⟨Q.mul⟩

instance : Div Q := ⟨Q.div⟩

instance : NatCast Q := ⟨fun n => ⟨n, 1⟩⟩

instance (n : ℕ) : OfNat Q n := ⟨⟨n, 1⟩⟩

instance : LE Q := ⟨fun a b => a.num * b.den ≤ b.num * a.den⟩

instance : LT Q := ⟨fun a b => a.num * b.den < b.num * a.den⟩

instance (a b : Q) : Decidable (a ≤ b) :=
  inferInstanceAs (Decidable (a.num * b.den ≤ b.num * a.den))

instance (a b : Q) : Decidable (a < b) :=
  inferInstanceAs (Decidable (a.num * b.den < b.num * a.den))

def Q.min (a b : Q) : Q := if a ≤ b then a else b

def Q.max (a b : Q) : Q := if a ≤ b then b else a

/-- Floor of a non-negative rational, as a natural number. -/
def Q.floorNat (a : Q) : ℕ := a.num.toNat / a.den

/-- src/lib.rs `struct Params`; the `f32` colour weights are represented exactly. -/
structure Params where
  algorithm : Algorithm
  weights : Q × Q × Q
  weighColourByAlpha : Bool

/-- Read a byte of a buffer (in-range by construction at every use). -/
def byteAt (l : List ℕ) (i : ℕ) : ℕ := l.getD i 0

/-- Bit `i` of a mask word; embeds the source's `mask & (1 << i) != 0`. -/
def maskTest (mask i : ℕ) : Bool := (mask >>> i) % 2 == 1

/-- src/lib.rs `num_blocks`: number of 4-wide blocks covering `size` pixels. -/
def numBlocks (size : ℕ) : ℕ := (size + 3) / 4

/-- src/lib.rs `Encoder::compressed_size` for a format with block size `bs`. -/
def compressedSize (bs w h : ℕ) : ℕ := numBlocks w * numBlocks h * bs

/-! ## ColourBlock codec (modelled from the spec, §4.5; `colourblock.rs` is not in src/) -/

/-- Modelled from the spec: expand a 16-bit 565 endpoint to 8-bit RGB by
bit-replication (5→8: `(v<<3)|(v>>2)`, 6→8: `(v<<2)|(v>>4)`), alpha 255. -/
def unpack565 (v : ℕ) : Pixel :=
  let r5 := (v >>> 11) % 32
  let g6 := (v >>> 5) % 64
  let b5 := v % 32
  ⟨(r5 <<< 3) ||| (r5 >>> 2), (g6 <<< 2) ||| (g6 >>> 4), (b5 <<< 3) ||| (b5 >>> 2), 255⟩

/-- Modelled from the spec: the 4-colour table `p0, p1, (2·p0+p1)/3, (p0+2·p1)/3`
(integer interpolation on the bit-replicated 8-bit channels, as the decoder computes it). -/
def palette4 (p0 p1 : Pixel) : List Pixel :=
  [p0, p1,
   ⟨(2 * p0.r + p1.r) / 3, (2 * p0.g + p1.g) / 3, (2 * p0.b + p1.b) / 3, 255⟩,
   ⟨(p0.r + 2 * p1.r) / 3, (p0.g + 2 * p1.g) / 3, (p0.b + 2 * p1.b) / 3, 255⟩]

/-- Modelled from the spec: the 3-colour+transparent table `p0, p1, (p0+p1)/2, TRANSPARENT_BLACK`. -/
def palette3 (p0 p1 : Pixel) : List Pixel :=
  [p0, p1,
   ⟨(p0.r + p1.r) / 2, (p0.g + p1.g) / 2, (p0.b + p1.b) / 2, 255⟩,
   ⟨0, 0, 0, 0⟩]

/-- Modelled from the spec (§4.5 Unpack): read the two little-endian 565 endpoints,
build the palette per the ordering rule (3-colour+transparent only for BC1 and only when
endpoint0 ≤ endpoint1 as 16-bit integers), then emit the palette entry selected by each
2-bit index (index `i` at bit positions `2i, 2i+1` of the little-endian index word). -/
def colourblockDecompress (block : List ℕ) (isBc1 : Bool) : List Pixel :=
  let a := byteAt block 0 + 256 * byteAt block 1
  let b := byteAt block 2 + 256 * byteAt block 3
  let p0 := unpack565 a
  let p1 := unpack565 b
  let pal := if isBc1 ∧ a ≤ b then palette3 p0 p1 else palette4 p0 p1
  (List.range 16).map fun i =>
    pal.getD ((byteAt block (4 + i / 4) >>> (2 * (i % 4))) % 4) zeroPixel

/-- One packed index byte holding four 2-bit indices, least significant first. -/
def packIndexByte (i0 i1 i2 i3 : ℕ) : ℕ := i0 % 4 + 4 * (i1 % 4) + 16 * (i2 % 4) + 64 * (i3 % 4)

/-- The four index bytes of a colour block from the 16 per-pixel indices. -/
def indexBytes (idx : List ℕ) : List ℕ :=
  [packIndexByte (byteAt idx 0) (byteAt idx 1) (byteAt idx 2) (byteAt idx 3),
   packIndexByte (byteAt idx 4) (byteAt idx 5) (byteAt idx 6) (byteAt idx 7),
   packIndexByte (byteAt idx 8) (byteAt idx 9) (byteAt idx 10) (byteAt idx 11),
   packIndexByte (byteAt idx 12) (byteAt idx 13) (byteAt idx 14) (byteAt idx 15)]

/-- Modelled from the spec (§4.5 Pack): bytes 0–1 and 2–3 are the little-endian
endpoints, bytes 4–7 the index word.  Three-colour mode ensures `a ≤ b`, swapping the
endpoints and remapping indices 0↔1 if needed; four-colour mode ensures `a > b`
(on a swap the interior palette slots exchange roles as well, so indices remap by
`xor 1`; equal endpoints cannot be separated, the reference then forces all indices
to 0). -/
def colourblockPack (a b : ℕ) (idx : List ℕ) (three : Bool) : List ℕ :=
  if three then
    if a ≤ b then
      [a % 256, a / 256 % 256, b % 256, b / 256 % 256] ++ indexBytes idx
    else
      [b % 256, b / 256 % 256, a % 256, a / 256 % 256] ++
        indexBytes (idx.map fun i => if i = 0 then 1 else if i = 1 then 0 else i)
  else
    if b < a then
      [a % 256, a / 256 % 256, b % 256, b / 256 % 256] ++ indexBytes idx
    else if a = b then
      [a % 256, a / 256 % 256, b % 256, b / 256 % 256] ++ indexBytes (List.replicate 16 0)
    else
      [b % 256, b / 256 % 256, a % 256, a / 256 % 256] ++ indexBytes (idx.map (· ^^^ 1))

/-! ## Alpha codec (modelled from the spec, §4.6; `alpha.rs` is not in src/) -/

/-- Write value `v` into channel `ch` (0=R, 1=G, 2=B, 3=A) of a pixel. -/
def setChannel (ch v : ℕ) (p : Pixel) : Pixel :=
  match ch with
  | 0 => { p with r := v }
  | 1 => { p with g := v }
  | 2 => { p with b := v }
  | _ => { p with a := v }

/-- Read channel `ch` of a pixel. -/
def getChannel (ch : ℕ) (p : Pixel) : ℕ :=
  match ch with
  | 0 => p.r
  | 1 => p.g
  | 2 => p.b
  | _ => p.a

/-- Modelled from the spec: the gradient-alpha palette.  If `a0 > a1` the eight values
are `a0, a1` and six evenly spaced interpolations; otherwise `a0, a1`, four
interpolations and the literal sentinels 0 and 255. -/
def alphaPalette (a0 a1 : ℕ) : List ℕ :=
  if a0 > a1 then
    [a0, a1, (6 * a0 + a1) / 7, (5 * a0 + 2 * a1) / 7, (4 * a0 + 3 * a1) / 7,
     (3 * a0 + 4 * a1) / 7, (2 * a0 + 5 * a1) / 7, (a0 + 6 * a1) / 7]
  else
    [a0, a1, (4 * a0 + a1) / 5, (3 * a0 + 2 * a1) / 5, (2 * a0 + 3 * a1) / 5,
     (a0 + 4 * a1) / 5, 0, 255]

/-- The 48-bit little-endian index word of a gradient alpha block (bytes 2..8). -/
def alphaBits (block : List ℕ) : ℕ :=
  byteAt block 2 + 256 * (byteAt block 3 + 256 * (byteAt block 4 +
    256 * (byteAt block 5 + 256 * (byteAt block 6 + 256 * byteAt block 7))))

/-- Modelled from the spec (`alpha::decompress_bc3`): read endpoints `a0, a1`, build the
gradient palette, extract the 16 3-bit indices and write the selected value into
channel `channel` of each pixel. -/
def alphaDecompressBc3 (rgba : List Pixel) (channel : ℕ) (block : List ℕ) : List Pixel :=
  let a0 := byteAt block 0
  let a1 := byteAt block 1
  let pal := alphaPalette a0 a1
  let bits := alphaBits block
  List.zipWith (fun p i => setChannel channel (pal.getD ((bits >>> (3 * i)) % 8) 0) p)
    rgba (List.range 16)

/-- Modelled from the spec (`alpha::decompress_bc2`): extract each 4-bit nibble
(little-endian, pixel `2j` in the low nibble of byte `j`) and scale by 17 into the
alpha channel. -/
def alphaDecompressBc2 (rgba : List Pixel) (block : List ℕ) : List Pixel :=
  List.zipWith (fun p i => setChannel 3 (((byteAt block (i / 2) >>> (4 * (i % 2))) % 16) * 17) p)
    rgba (List.range 16)

/-- Modelled from the spec (`alpha::compress_bc2`): each in-mask pixel's alpha rounds to
the nearest nibble as `(a*15 + 127)/255`; masked-out pixels pack as 0; nibbles pack
little-endian into 8 bytes. -/
def alphaCompressBc2 (rgba : List Pixel) (mask : ℕ) : List ℕ :=
  let nib := fun i =>
    if maskTest mask i then ((rgba.getD i zeroPixel).a * 15 + 127) / 255 else 0
  (List.range 8).map fun j => nib (2 * j) + 16 * nib (2 * j + 1)

/-- Squared distance of two alpha values. -/
def alphaSqDiff (x y : ℕ) : ℕ := ((x : ℤ) - y).natAbs * ((x : ℤ) - y).natAbs

/-- Index of the palette value nearest to `v` (ties prefer the lower index). -/
def alphaNearest (pal : List ℕ) (v : ℕ) : ℕ :=
  (pal.foldl
    (fun st c =>
      let d := alphaSqDiff v c
      if d < st.2.1 then (st.2.2, d, st.2.2 + 1) else (st.1, st.2.1, st.2.2 + 1))
    ((0 : ℕ), alphaSqDiff v (pal.getD 0 0), (0 : ℕ))).1

/-- Error and per-pixel indices of one gradient-alpha candidate palette: masked pixels
take the nearest palette entry, masked-out pixels index 0. -/
def alphaCandidate (values : List ℕ) (mask : ℕ) (pal : List ℕ) : ℕ × List ℕ :=
  let idx := (List.range 16).map fun i =>
    if maskTest mask i then alphaNearest pal (values.getD i 0) else 0
  let err := (List.range 16).foldl
    (fun acc i =>
      if maskTest mask i then
        acc + alphaSqDiff (values.getD i 0) (pal.getD (idx.getD i 0) 0)
      else acc) 0
  (err, idx)

/-- Modelled from the spec (`alpha::compress_bc3`): find the min and max of the masked
values of channel `channel`; evaluate the 8-value palette with endpoints `(max, min)`
and the 6-value+sentinels palette with endpoints `(min, max)`; keep the candidate with
the lower total squared error (the 8-value candidate on a tie); emit the two endpoint
bytes followed by the 16 3-bit indices packed little-endian into 6 bytes. -/
def alphaCompressBc3 (rgba : List Pixel) (channel mask : ℕ) : List ℕ :=
  let values := (List.range 16).map fun i => getChannel channel (rgba.getD i zeroPixel)
  let masked := (List.range 16).filterMap fun i =>
    if maskTest mask i then some (values.getD i 0) else none
  let amin := masked.foldl min 255
  let amax := masked.foldl max 0
  let candA := alphaCandidate values mask (alphaPalette amax amin)
  let candB := alphaCandidate values mask (alphaPalette amin amax)
  let useB := candB.1 < candA.1
  let a0 := if useB then amin else amax
  let a1 := if useB then amax else amin
  let idx := if useB then candB.2 else candA.2
  let bits := idx.foldr (fun i acc => i % 8 + 8 * acc) 0
  [a0, a1] ++ (List.range 6).map fun k => (bits >>> (8 * k)) % 256

/-! ## ColourSet (modelled from the spec, §4.1; `colourset.rs` is not in src/) -/

/-- The reduced weighted colour set of a tile: unique opaque colours in order of first
appearance, their accumulated weights, the pixel→entry remap (`none` for skipped
pixels) and the BC1 transparency flag. -/
structure ColourSet where
  points : List (ℕ × ℕ × ℕ)
  weights : List Q
  remap : List (Option ℕ)
  transparent : Bool
deriving DecidableEq, Repr

def ColourSet.count (s : ColourSet) : ℕ := s.points.length

/-- Modelled from the spec (§4.1): process one pixel of the tile.  Skip it when its mask
bit is clear; under BC1 skip pixels with alpha < 128 and record transparency; otherwise
dedupe on the 8-bit RGB triple (exact float equality of the `/255` values coincides with
this), accumulating the weight `1` or `max(alpha/255, 1/256)` under `weigh_by_alpha`. -/
def colourSetStep (isBc1 weighByAlpha : Bool) (p : Pixel) (inMask : Bool)
    (s : ColourSet) : ColourSet :=
  if !inMask then { s with remap := s.remap ++ [none] }
  else if isBc1 ∧ p.a < 128 then { s with remap := s.remap ++ [none], transparent := true }
  else
    let key := (p.r, p.g, p.b)
    let w : Q := if weighByAlpha then Q.max ((p.a : Q) / 255) (1 / 256) else 1
    match s.points.findIdx? (fun q => q == key) with
    | some j =>
        { s with weights := s.weights.set j (s.weights.getD j 0 + w),
                 remap := s.remap ++ [some j] }
    | none =>
        { s with points := s.points ++ [key], weights := s.weights ++ [w],
                 remap := s.remap ++ [some s.points.length] }

/-- Modelled from the spec (§4.1): `ColourSet::new` over the 16 tile pixels. -/
def ColourSet.new (rgba : List Pixel) (mask : ℕ) (isBc1 weighByAlpha : Bool) : ColourSet :=
  (List.range 16).foldl
    (fun s i => colourSetStep isBc1 weighByAlpha (rgba.getD i zeroPixel) (maskTest mask i) s)
    ⟨[], [], [], false⟩

/-! ## Fixed-point / vector maths (modelled from the spec, §4.3–§4.4; `math.rs` and
`colourfit.rs` are not in src/) -/

/-- A 3-vector of exact rationals standing for the reference's `f32` RGB vectors. -/
structure V3 where
  x : Q
  y : Q
  z : Q
deriving DecidableEq, Repr

def V3.add (u v : V3) : V3 := ⟨u.x + v.x, u.y + v.y, u.z + v.z⟩

def V3.sub (u v : V3) : V3 := ⟨u.x - v.x, u.y - v.y, u.z - v.z⟩

def V3.smul (c : Q) (v : V3) : V3 := ⟨c * v.x, c * v.y, c * v.z⟩

def V3.dot (u v : V3) : Q := u.x * v.x + u.y * v.y + u.z * v.z

/-- Normalised RGB point of an 8-bit colour triple. -/
def pointToV3 (c : ℕ × ℕ × ℕ) : V3 := ⟨(c.1 : Q) / 255, (c.2.1 : Q) / 255, (c.2.2 : Q) / 255⟩

/-- Normalised RGB point of a pixel. -/
def pixelToV3 (p : Pixel) : V3 := ⟨(p.r : Q) / 255, (p.g : Q) / 255, (p.b : Q) / 255⟩

/-- A symmetric 3×3 matrix (the covariance of a colour set). -/
structure Sym3 where
  xx : Q
  xy : Q
  xz : Q
  yy : Q
  yz : Q
  zz : Q
deriving DecidableEq, Repr

def Sym3.mulVec (m : Sym3) (v : V3) : V3 :=
  ⟨m.xx * v.x + m.xy * v.y + m.xz * v.z,
   m.xy * v.x + m.yy * v.y + m.yz * v.z,
   m.xz * v.x + m.yz * v.y + m.zz * v.z⟩

/-- Weighted centroid of a point set. -/
def centroid (pts : List V3) (ws : List Q) : V3 :=
  let tw := ws.foldl (· + ·) 0
  let sum := (pts.zip ws).foldl (fun acc pw => acc.add (V3.smul pw.2 pw.1)) ⟨0, 0, 0⟩
  if tw = 0 then ⟨0, 0, 0⟩ else V3.smul (1 / tw) sum

/-- Weighted covariance of a point set about its centroid. -/
def covariance (pts : List V3) (ws : List Q) : Sym3 :=
  let c := centroid pts ws
  (pts.zip ws).foldl
    (fun m pw =>
      let d := pw.1.sub c
      ⟨m.xx + pw.2 * d.x * d.x, m.xy + pw.2 * d.x * d.y, m.xz + pw.2 * d.x * d.z,
       m.yy + pw.2 * d.y * d.y, m.yz + pw.2 * d.y * d.z, m.zz + pw.2 * d.z * d.z⟩)
    ⟨0, 0, 0, 0, 0, 0⟩

/-- Modelled from the spec (§4.3 step 2): the principal axis by power iteration —
start from (1,1,1), multiply by the covariance 8 times; a vanishing result falls back
to (1,1,1).  The reference normalises the final vector; every use below (projection and
sorting) is invariant under positive rescaling, so the exact model keeps the
unnormalised vector. -/
def principalAxis (pts : List V3) (ws : List Q) : V3 :=
  let m := covariance pts ws
  let v := (List.range 8).foldl (fun v _ => m.mulVec v) ⟨1, 1, 1⟩
  if v = (⟨0, 0, 0⟩ : V3) then ⟨1, 1, 1⟩ else v

def clamp01 (q : Q) : Q := Q.max 0 (Q.min 1 q)

/-- Modelled from the spec (§4.3 step 4): clamp to [0,1] and round to the nearest point
of an `levels`-step grid (multiply, add ½, floor). -/
def quantBits (q : Q) (levels : ℕ) : ℕ := (clamp01 q * (levels : Q) + 1 / 2).floorNat

/-- Quantise a clamped RGB point to a 16-bit 565 endpoint. -/
def q565 (v : V3) : ℕ :=
  (quantBits v.x 31) <<< 11 ||| (quantBits v.y 63) <<< 5 ||| quantBits v.z 31

/-- Which index table a fitted block uses. -/
inductive PalMode where
  | three
  | four
deriving DecidableEq, Repr

/-- The candidate palette entries of a mode, by palette slot (the transparent slot of
three-colour mode is never a candidate for an opaque set entry). -/
def modePalette : PalMode → Pixel → Pixel → List Pixel
  | .three, p0, p1 => (palette3 p0 p1).take 3
  | .four, p0, p1 => palette4 p0 p1

/-- Channel-weighted squared distance; per the spec (§4.4) each channel's squared error
is multiplied by the squared channel weight. -/
def sqDist (metric : Q × Q × Q) (u v : V3) : Q :=
  metric.1 * metric.1 * ((u.x - v.x) * (u.x - v.x)) +
  metric.2.1 * metric.2.1 * ((u.y - v.y) * (u.y - v.y)) +
  metric.2.2 * metric.2.2 * ((u.z - v.z) * (u.z - v.z))

/-- Nearest palette slot for a point (strict improvement, so ties prefer the lower
slot), together with its distance. -/
def bestSlot (metric : Q × Q × Q) (pal : List V3) (x : V3) : ℕ × Q :=
  match pal with
  | [] => (3, 0)
  | p :: ps =>
      (ps.foldl
        (fun st q =>
          let d := sqDist metric x q
          if d < st.2.1 then (st.2.2, d, st.2.2 + 1) else (st.1, st.2.1, st.2.2 + 1))
        ((0 : ℕ), sqDist metric x p, (1 : ℕ))) |> fun st => (st.1, st.2.1)

/-- Per-entry palette slots → per-pixel 2-bit indices through the colour set's remap;
pixels without a set entry (masked out or BC1-transparent) get index 3. -/
def remapIndices (s : ColourSet) (entrySlots : List ℕ) : List ℕ :=
  s.remap.map fun r =>
    match r with
    | none => 3
    | some j => entrySlots.getD j 0

/-! ## RangeFit (modelled from the spec, §4.3; `colourfit.rs` is not in src/) -/

/-- Modelled from the spec (§4.3 step 3): project every set point onto the principal
axis through the centroid and take the extreme projections as raw endpoints. -/
def rangeEndpoints (pts : List V3) (ws : List Q) : V3 × V3 :=
  let c := centroid pts ws
  let v := principalAxis pts ws
  let n := V3.dot v v
  match pts.map (fun p => V3.dot (p.sub c) v) with
  | [] => (c, c)
  | t :: ts =>
      let tmin := ts.foldl Q.min t
      let tmax := ts.foldl Q.max t
      (c.add (V3.smul (tmin / n) v), c.add (V3.smul (tmax / n) v))

/-- Error and per-entry slots of one RangeFit candidate palette: each set entry takes
its nearest palette slot (spec §4.3 step 5); the error is the sum of those distances. -/
def rangeEval (metric : Q × Q × Q) (s : ColourSet) (p0 p1 : Pixel) (mode : PalMode) :
    Q × List ℕ :=
  let pal := (modePalette mode p0 p1).map pixelToV3
  let rs := s.points.map fun c => bestSlot metric pal (pointToV3 c)
  (rs.foldl (fun acc r => acc + r.2) 0, rs.map (·.1))

/-- The modes a BC1/BC2/BC3 colour fitter may emit: three-colour mode only for BC1
(spec §4.7), tried first; a transparent BC1 set forces three-colour mode. -/
def allowedModes (isBc1 transparent : Bool) : List PalMode :=
  if isBc1 then (if transparent then [.three] else [.three, .four]) else [.four]

/-- Modelled from the spec (§4.3 RangeFit, §4.1/§7 for the empty set): compute the
principal-axis endpoints, quantise them to 565 and reconstruct them as the decoder
does, evaluate each allowed palette mode and keep the first strictly best, then pack.
An empty set produces the degenerate valid block with zero endpoints (every pixel is
unmapped, so it packs as index 3, the transparent slot in BC1 three-colour mode). -/
def rangeFitCompress (s : ColourSet) (isBc1 : Bool) (metric : Q × Q × Q) : List ℕ :=
  if s.count = 0 then
    colourblockPack 0 0 (remapIndices s []) isBc1
  else
    let pts := s.points.map pointToV3
    let ep := rangeEndpoints pts s.weights
    let a := q565 ep.1
    let b := q565 ep.2
    let p0 := unpack565 a
    let p1 := unpack565 b
    let evals := (allowedModes isBc1 s.transparent).map fun m => (m, rangeEval metric s p0 p1 m)
    match evals with
    | [] => colourblockPack 0 0 (remapIndices s []) isBc1
    | e :: es =>
        let best := es.foldl (fun acc f => if f.2.1 < acc.2.1 then f else acc) e
        colourblockPack a b (remapIndices s best.2.2) (decide (best.1 = PalMode.three))

/-! ## ClusterFit (modelled from the spec, §4.4; `colourfit.rs` is not in src/) -/

/-- Stable insertion, keeping existing elements with an equal or smaller key first. -/
def insertByProj (x : Q × V3 × Q × ℕ) :
    List (Q × V3 × Q × ℕ) → List (Q × V3 × Q × ℕ)
  | [] => [x]
  | y :: ys => if y.1 ≤ x.1 then y :: insertByProj x ys else x :: y :: ys

/-- Stable ascending sort by projection value (spec §4.4 step 2). -/
def sortByProj (l : List (Q × V3 × Q × ℕ)) : List (Q × V3 × Q × ℕ) :=
  l.foldl (fun acc x => insertByProj x acc) []

/-- All ordered 3-partitions `(c0, c1, c2)` with `c0+c1+c2 = n`. -/
def partitions3 (n : ℕ) : List (ℕ × ℕ × ℕ) :=
  (List.range (n + 1)).flatMap fun c0 =>
    (List.range (n + 1 - c0)).map fun c1 => (c0, c1, n - c0 - c1)

/-- All ordered 4-partitions `(c0, c1, c2, c3)` with sum `n`. -/
def partitions4 (n : ℕ) : List (ℕ × ℕ × ℕ × ℕ) :=
  (List.range (n + 1)).flatMap fun c0 =>
    (List.range (n + 1 - c0)).flatMap fun c1 =>
      (List.range (n + 1 - c0 - c1)).map fun c2 => (c0, c1, c2, n - c0 - c1 - c2)

/-- Palette slots of a mode in ascending line position, with their positions:
3-colour `0, ½, 1` on slots `0, 2, 1`; 4-colour `0, ⅓, ⅔, 1` on slots `0, 2, 3, 1`
(spec §4.4 step 3). -/
def slotPositions : PalMode → List (ℕ × Q)
  | .three => [(0, 0), (2, 1 / 2), (1, 1)]
  | .four => [(0, 0), (2, 1 / 3), (3, 2 / 3), (1, 1)]

/-- Per-sorted-point `(slot, position)` assignment of a 3-partition. -/
def assign3 (c : ℕ × ℕ × ℕ) : List (ℕ × Q) :=
  List.replicate c.1 ((0 : ℕ), (0 : Q)) ++ List.replicate c.2.1 ((2 : ℕ), (1 / 2 : Q)) ++
    List.replicate c.2.2 ((1 : ℕ), (1 : Q))

/-- Per-sorted-point `(slot, position)` assignment of a 4-partition. -/
def assign4 (c : ℕ × ℕ × ℕ × ℕ) : List (ℕ × Q) :=
  List.replicate c.1 ((0 : ℕ), (0 : Q)) ++ List.replicate c.2.1 ((2 : ℕ), (1 / 3 : Q)) ++
    List.replicate c.2.2.1 ((3 : ℕ), (2 / 3 : Q)) ++ List.replicate c.2.2.2 ((1 : ℕ), (1 : Q))

/-- A fitted cluster candidate: its mode, per-sorted-point assignment, quantised 565
endpoints and weighted error. -/
structure ClusterCand where
  mode : PalMode
  assign : List (ℕ × Q)
  a : ℕ
  b : ℕ
  err : Q
deriving DecidableEq, Repr

/-- Modelled from the spec (§4.4 steps 4–5, §7): solve the weighted least-squares
normal equations for the endpoints of one partition (skipping it when they are
singular), clamp to [0,1], quantise to 565, and compute the weighted SSD of the sorted
points against the palette the decoder reconstructs from the quantised endpoints. -/
def clusterEval (metric : Q × Q × Q) (spts : List (V3 × Q)) (mode : PalMode)
    (assign : List (ℕ × Q)) : Option ClusterCand :=
  let rows := spts.zip assign
  let al := rows.foldl (fun acc r => acc + r.1.2 * (1 - r.2.2) * (1 - r.2.2)) 0
  let bt := rows.foldl (fun acc r => acc + r.1.2 * (1 - r.2.2) * r.2.2) 0
  let ga := rows.foldl (fun acc r => acc + r.1.2 * r.2.2 * r.2.2) 0
  let det := al * ga - bt * bt
  if det = 0 then none
  else
    let d1 := rows.foldl (fun acc r => acc.add (V3.smul (r.1.2 * (1 - r.2.2)) r.1.1)) ⟨0, 0, 0⟩
    let d2 := rows.foldl (fun acc r => acc.add (V3.smul (r.1.2 * r.2.2) r.1.1)) ⟨0, 0, 0⟩
    let p0 := V3.smul (1 / det) (V3.sub (V3.smul ga d1) (V3.smul bt d2))
    let p1 := V3.smul (1 / det) (V3.sub (V3.smul al d2) (V3.smul bt d1))
    let a := q565 p0
    let b := q565 p1
    let pal := (modePalette mode (unpack565 a) (unpack565 b)).map pixelToV3
    let err := rows.foldl
      (fun acc r => acc + r.1.2 * sqDist metric r.1.1 (pal.getD r.2.1 ⟨0, 0, 0⟩)) 0
    some ⟨mode, assign, a, b, err⟩

/-- Keep the strictly better of the running best and one more candidate (ties keep the
earlier candidate, spec §4.4 step 6). -/
def betterCand (best : Option ClusterCand) (c : Option ClusterCand) : Option ClusterCand :=
  match best, c with
  | none, c => c
  | some b, none => some b
  | some b, some c => if c.err < b.err then some c else some b

/-- Modelled from the spec (§4.4 step 7): reassign each sorted point to its nearest
slot of the palette rebuilt from the quantised endpoints. -/
def reassign (metric : Q × Q × Q) (spts : List (V3 × Q)) (mode : PalMode) (a b : ℕ) :
    List (ℕ × Q) :=
  let pal := (modePalette mode (unpack565 a) (unpack565 b)).map pixelToV3
  spts.map fun p =>
    match slotPositions mode with
    | [] => (0, 0)
    | sp :: sps =>
        sps.foldl
          (fun st q =>
            let d := sqDist metric p.1 (pal.getD q.1 ⟨0, 0, 0⟩)
            if d < st.2 then (q, d) else st)
          (sp, sqDist metric p.1 (pal.getD sp.1 ⟨0, 0, 0⟩))
        |> fun st => st.1

/-- Modelled from the spec (§4.4 step 7): iterative refinement — rebuild, reassign,
solve and evaluate, keeping the best; terminate when the assignment is unchanged or
after the fuel (8 iterations) runs out. -/
def iterateRefine (metric : Q × Q × Q) (spts : List (V3 × Q)) :
    ℕ → ClusterCand → List (ℕ × Q) → ClusterCand
  | 0, best, _ => best
  | fuel + 1, best, prev =>
      let na := reassign metric spts best.mode best.a best.b
      if na = prev then best
      else
        match clusterEval metric spts best.mode na with
        | none => best
        | some c => iterateRefine metric spts fuel (if c.err < best.err then c else best) na

/-- Recover each set entry's palette slot from the sorted-order permutation and the
per-sorted-point assignment. -/
def entrySlotsOf (count : ℕ) (perm : List ℕ) (assign : List (ℕ × Q)) : List ℕ :=
  (List.range count).map fun j =>
    match (perm.zip assign).find? (fun pa => pa.1 == j) with
    | some pa => pa.2.1
    | none => 0

/-- Modelled from the spec (§4.4 ClusterFit): sort the set along the principal axis,
enumerate the partitions of every allowed mode (three-colour first for BC1), solve and
evaluate each, keep the first strictly best, optionally refine iteratively, and pack
the winning endpoints and indices. -/
def clusterFitCompress (s : ColourSet) (isBc1 : Bool) (metric : Q × Q × Q)
    (iterate : Bool) : List ℕ :=
  if s.count = 0 then rangeFitCompress s isBc1 metric
  else
    let pts := s.points.map pointToV3
    let axis := principalAxis pts s.weights
    let triples := (List.range s.count).map fun j =>
      let p := pts.getD j ⟨0, 0, 0⟩
      (V3.dot p axis, p, s.weights.getD j 0, j)
    let sorted := sortByProj triples
    let spts : List (V3 × Q) := sorted.map fun r => (r.2.1, r.2.2.1)
    let perm : List ℕ := sorted.map (·.2.2.2)
    let cands : List (PalMode × List (ℕ × Q)) :=
      (allowedModes isBc1 s.transparent).flatMap fun m =>
        match m with
        | .three => (partitions3 s.count).map fun c => (PalMode.three, assign3 c)
        | .four => (partitions4 s.count).map fun c => (PalMode.four, assign4 c)
    let best := cands.foldl (fun acc c => betterCand acc (clusterEval metric spts c.1 c.2)) none
    match best with
    | none => rangeFitCompress s isBc1 metric
    | some b =>
        let fin := if iterate then iterateRefine metric spts 8 b b.assign else b
        colourblockPack fin.a fin.b
          (remapIndices s (entrySlotsOf s.count perm fin.assign))
          (decide (fin.mode = PalMode.three))

/-! ## SingleColourFit (modelled from the spec, §4.2; `colourfit.rs` is not in src/) -/

def rep5 (e : ℕ) : ℕ := (e <<< 3) ||| (e >>> 2)

def rep6 (e : ℕ) : ℕ := (e <<< 2) ||| (e >>> 4)

/-- The decoder's reconstruction of palette slot `slot` from two 8-bit channel values. -/
def interpSlot (mode : PalMode) (slot v0 v1 : ℕ) : ℕ :=
  match mode, slot with
  | _, 0 => v0
  | _, 1 => v1
  | .three, _ => (v0 + v1) / 2
  | .four, 2 => (2 * v0 + v1) / 3
  | .four, _ => (v0 + 2 * v1) / 3

/-- Modelled from the spec (§4.2): the precomputed per-channel table, represented by its
defining property — the endpoint pair whose reconstruction at `slot` minimises the
squared error against the target value (first minimum in scan order). -/
def bestChanFit (rep : ℕ → ℕ) (levels : ℕ) (mode : PalMode) (slot t : ℕ) : ℕ × ℕ × ℕ :=
  (List.range (levels + 1)).foldl
    (fun best e0 =>
      (List.range (levels + 1)).foldl
        (fun best e1 =>
          let err := alphaSqDiff t (interpSlot mode slot (rep e0) (rep e1))
          if err < best.1 then (err, e0, e1) else best)
        best)
    (alphaSqDiff t (interpSlot mode slot (rep 0) (rep 0)), 0, 0)

/-- Modelled from the spec (§4.2 SingleColourFit): for each allowed mode and palette
slot take the per-channel optimal endpoints, reconcile across channels by total error
(the joint table of the reference), and emit the endpoints with the chosen slot
replicated over the set's single entry. -/
def singleColourFit (s : ColourSet) (isBc1 : Bool) : List ℕ :=
  let c := s.points.getD 0 (0, 0, 0)
  let cands := (allowedModes isBc1 s.transparent).flatMap fun mode =>
    (match mode with | .three => [0, 2] | .four => [0, 2, 3]).map fun slot =>
      let rf := bestChanFit rep5 31 mode slot c.1
      let gf := bestChanFit rep6 63 mode slot c.2.1
      let bf := bestChanFit rep5 31 mode slot c.2.2
      (rf.1 + gf.1 + bf.1, mode, slot,
        (rf.2.1 <<< 11) ||| (gf.2.1 <<< 5) ||| bf.2.1,
        (rf.2.2 <<< 11) ||| (gf.2.2 <<< 5) ||| bf.2.2)
  match cands with
  | [] => colourblockPack 0 0 (remapIndices s []) isBc1
  | e :: es =>
      let best := es.foldl (fun acc f => if f.1 < acc.1 then f else acc) e
      colourblockPack best.2.2.2.1 best.2.2.2.2 (remapIndices s [best.2.2.1])
        (decide (best.2.1 = PalMode.three))

/-! ## Fitter dispatch and the shared BC1/BC2/BC3 colour-block encoder
(src/lib.rs `compress_bc1_bc2_bc3_colour_block`) -/

/-- The three colour fitters of src/lib.rs. -/
inductive FitterChoice where
  | single
  | range
  | cluster (iterate : Bool)
deriving DecidableEq, Repr

/-- The fitter-selection chain of src/lib.rs lines 275–288: `SingleColourFit` when the
set has exactly one entry, else `RangeFit` when the algorithm is RangeFit or the set is
empty, else `ClusterFit` with iteration exactly for `IterativeClusterFit`. -/
def chooseFitter (count : ℕ) (alg : Algorithm) : FitterChoice :=
  if count = 1 then .single
  else if alg = Algorithm.rangeFit ∨ count = 0 then .range
  else .cluster (decide (alg = Algorithm.iterativeClusterFit))

/-- src/lib.rs `compress_bc1_bc2_bc3_colour_block`: build the colour set and compress
it with the selected fitter, producing the 8 colour-block bytes. -/
def compressColourBlock (rgba : List Pixel) (mask : ℕ) (params : Params)
    (isBc1 : Bool) : List ℕ :=
  let colours := ColourSet.new rgba mask isBc1 params.weighColourByAlpha
  match chooseFitter colours.count params.algorithm with
  | .single => singleColourFit colours isBc1
  | .range => rangeFitCompress colours isBc1 params.weights
  | .cluster iterate => clusterFitCompress colours isBc1 params.weights iterate

/-! ## Format adapters (src/bc1.rs … src/bc5.rs) -/

/-- src/bc1.rs `BC1::block_size`. -/
def BC1.blockSize : ℕ := 8

/-- src/bc2.rs `BC2::block_size`. -/
def BC2.blockSize : ℕ := 16

/-- src/bc3.rs `BC3::block_size`. -/
def BC3.blockSize : ℕ := 16

/-- src/bc4.rs `BC4::block_size`. -/
def BC4.blockSize : ℕ := 8

/-- src/bc5.rs `BC5::block_size`. -/
def BC5.blockSize : ℕ := 16

/-- src/bc1.rs `BC1::decompress_block` (asserts the block length, then decompresses the
colour block with `is_bc1 = true`). -/
def BC1.decompressBlock (block : List ℕ) : Option (List Pixel) :=
  if block.length = 8 then some (colourblockDecompress block true) else none

/-- src/bc2.rs `BC2::decompress_block`: colour from bytes 8..16 — the source passes
`true` for the colourblock's `is_bc1` argument — then the BC2 alpha from bytes 0..8. -/
def BC2.decompressBlock (block : List ℕ) : Option (List Pixel) :=
  if block.length = 16 then
    some (alphaDecompressBc2 (colourblockDecompress ((block.drop 8).take 8) true)
      (block.take 8))
  else none

/-- src/bc3.rs `BC3::decompress_block`: colour from bytes 8..16 — the source passes
`true` for the colourblock's `is_bc1` argument — then gradient alpha into channel 3. -/
def BC3.decompressBlock (block : List ℕ) : Option (List Pixel) :=
  if block.length = 16 then
    some (alphaDecompressBc3 (colourblockDecompress ((block.drop 8).take 8) true) 3
      (block.take 8))
  else none

/-- src/bc4.rs `BC4::decompress_block`: gradient alpha of the block decoded into
channel 0 of a zero-initialised tile.  The source's splat loop
`for ref mut pixel in rgba { pixel[1] = pixel[0]; pixel[2] = pixel[0]; }` iterates over
a by-value copy of the array (arrays are `IntoIterator` by value), so its writes are
discarded and the returned pixels keep `g = b = 0`; no statement touches alpha, which
stays 0 from the initialisation. -/
def BC4.decompressBlock (block : List ℕ) : Option (List Pixel) :=
  if block.length = 8 then
    some (alphaDecompressBc3 (List.replicate 16 zeroPixel) 0 block)
  else none

/-- src/bc5.rs `BC5::decompress_block`: gradient alpha of bytes 0..8 into channel 0 and
of bytes 8..16 into channel 1 of a zero-initialised tile; channels 2 (blue) and 3
(alpha) are never written and stay 0. -/
def BC5.decompressBlock (block : List ℕ) : Option (List Pixel) :=
  if block.length = 16 then
    some (alphaDecompressBc3 (alphaDecompressBc3 (List.replicate 16 zeroPixel) 0
      (block.take 8)) 1 (block.drop 8))
  else none

/-- src/bc1.rs `BC1::compress_block_masked`. -/
def BC1.compressBlockMasked (rgba : List Pixel) (mask : ℕ) (params : Params) : List ℕ :=
  compressColourBlock rgba mask params true

/-- src/bc2.rs `BC2::compress_block_masked`: BC2 alpha into bytes 0..8, colour block
into bytes 8..16. -/
def BC2.compressBlockMasked (rgba : List Pixel) (mask : ℕ) (params : Params) : List ℕ :=
  alphaCompressBc2 rgba mask ++ compressColourBlock rgba mask params false

/-- src/bc3.rs `BC3::compress_block_masked`: gradient alpha of channel 3 into bytes
0..8, colour block into bytes 8..16. -/
def BC3.compressBlockMasked (rgba : List Pixel) (mask : ℕ) (params : Params) : List ℕ :=
  alphaCompressBc3 rgba 3 mask ++ compressColourBlock rgba mask params false

/-- src/bc4.rs `BC4::compress_block_masked`: gradient alpha of channel 0 only; the
`params` argument is ignored (`_params` in the source). -/
def BC4.compressBlockMasked (rgba : List Pixel) (mask : ℕ) (_params : Params) : List ℕ :=
  alphaCompressBc3 rgba 0 mask

/-- src/bc5.rs `BC5::compress_block_masked`: gradient alpha of channels 0 and 1; the
`params` argument is ignored (`_params` in the source). -/
def BC5.compressBlockMasked (rgba : List Pixel) (mask : ℕ) (_params : Params) : List ℕ :=
  alphaCompressBc3 rgba 0 mask ++ alphaCompressBc3 rgba 1 mask

/-! ## Tiling driver (src/lib.rs `Encoder::compress`, `Decoder::decompress`) -/

/-- Whether tile position `i` (row-major `4*py + px`) of block `(x, y)` lies inside a
`w × h` image: `sx = 4x + px < w` and `sy = 4y + py < h` (src/lib.rs lines 240–244). -/
def inImage (w h y x i : ℕ) : Bool :=
  decide (4 * x + i % 4 < w) && decide (4 * y + i / 4 < h)

/-- The source image pixel at tile position `i` of block `(x, y)`
(`rgba[4*(width*sy + sx) ..]`, src/lib.rs line 246). -/
def srcPixel (rgba : List ℕ) (w y x i : ℕ) : Pixel :=
  let base := 4 * (w * (4 * y + i / 4) + (4 * x + i % 4))
  ⟨byteAt rgba base, byteAt rgba (base + 1), byteAt rgba (base + 2), byteAt rgba (base + 3)⟩

/-- One step of the tile build of src/lib.rs lines 233–253: in-image positions are
overwritten from the source, the rest keep the previous contents of `source_rgba`. -/
def tileFor (prev : List Pixel) (rgba : List ℕ) (w h y x : ℕ) : List Pixel :=
  (List.range 16).map fun i =>
    if inImage w h y x i then srcPixel rgba w y x i else prev.getD i zeroPixel

/-- The 16-pixel array passed to `compress_block_masked` for block `(x, y)`.  The
source declares `source_rgba` once per row of blocks (src/lib.rs line 229), so the
array for block `x+1` starts from the array left by block `x`; only the first block of
a row starts from zeros. -/
def tileAt (rgba : List ℕ) (w h y : ℕ) : ℕ → List Pixel
  | 0 => tileFor (List.replicate 16 zeroPixel) rgba w h y 0
  | x + 1 => tileFor (tileAt rgba w h y x) rgba w h y (x + 1)

/-- Little-endian value of a bit list (bit `i` of the mask is element `i`). -/
def bitsToNat : List Bool → ℕ
  | [] => 0
  | b :: bs => (if b then 1 else 0) + 2 * bitsToNat bs

/-- The mask passed to `compress_block_masked` for block `(x, y)`: bit `i` set exactly
for the in-image tile positions (`mask |= 1 << index`, src/lib.rs line 250; the sum of
distinct powers of two equals this little-endian bit value). -/
def maskAt (w h y x : ℕ) : ℕ := bitsToNat ((List.range 16).map (inImage w h y x))

/-- `chunks`/`chunks_mut` of a byte buffer: maximal pieces of `k` bytes, the last one
possibly shorter.  Fuel-based recursion (`k > 0` is the caller's obligation; `k = 0`
panics in Rust and is rejected before this is called). -/
def chunksAux (k : ℕ) : ℕ → List ℕ → List (List ℕ)
  | 0, _ => []
  | _, [] => []
  | fuel + 1, l => l.take k :: chunksAux k fuel (l.drop k)

def chunks (l : List ℕ) (k : ℕ) : List (List ℕ) := chunksAux k l.length l

/-- The per-row block loop of `Encoder::compress` (src/lib.rs lines 232–256): each
block-sized chunk of the output row is fully overwritten by the encoder's bytes; a
trailing partial chunk makes the encoder's slice writes panic (`none`). -/
def encodeBlocks (enc : List Pixel → ℕ → Params → List ℕ) (bs : ℕ) (rgba : List ℕ)
    (w h y : ℕ) (p : Params) : ℕ → List (List ℕ) → Option (List ℕ)
  | _, [] => some []
  | x, c :: cs =>
      if c.length = bs then
        match encodeBlocks enc bs rgba w h y p (x + 1) cs with
        | some rest => some (enc (tileAt rgba w h y x) (maskAt w h y x) p ++ rest)
        | none => none
      else none

/-- The row loop of `Encoder::compress` (src/lib.rs line 228): every chunk of
`blocks_wide * block_size` output bytes is processed as a row of blocks `y`. -/
def encodeRows (enc : List Pixel → ℕ → Params → List ℕ) (bs : ℕ) (rgba : List ℕ)
    (w h : ℕ) (p : Params) : ℕ → List (List ℕ) → Option (List ℕ)
  | _, [] => some []
  | y, c :: cs =>
      match encodeBlocks enc bs rgba w h y p 0 (chunks c bs),
            encodeRows enc bs rgba w h p (y + 1) cs with
      | some r, some rest => some (r ++ rest)
      | _, _ => none

/-- src/lib.rs `Encoder::compress`: assert the output is at least `compressed_size`
bytes, then chunk the whole output buffer into rows of blocks and encode each.  A zero
row stride (`width = 0` or `block_size = 0`) panics in `chunks_mut` (`none`). -/
def genCompress (enc : List Pixel → ℕ → Params → List ℕ) (bs : ℕ) (rgba : List ℕ)
    (w h : ℕ) (p : Params) (output : List ℕ) : Option (List ℕ) :=
  if output.length < compressedSize bs w h then none
  else if numBlocks w * bs = 0 then none
  else encodeRows enc bs rgba w h p 0 (chunks output (numBlocks w * bs))

/-- A bounds-checked byte write (Rust slice indexing; out of bounds panics). -/
def writeByte (l : List ℕ) (i v : ℕ) : Option (List ℕ) :=
  if i < l.length then some (l.set i v) else none

/-- Write the four channels of a decoded pixel at image position `(sx, sy)` of an
output row chunk (src/lib.rs lines 184–186). -/
def writeDecodedPixel (chunk : List ℕ) (w sx sy : ℕ) (p : Pixel) : Option (List ℕ) := do
  let c0 ← writeByte chunk (4 * (sx + sy * w)) p.r
  let c1 ← writeByte c0 (4 * (sx + sy * w) + 1) p.g
  let c2 ← writeByte c1 (4 * (sx + sy * w) + 2) p.b
  writeByte c2 (4 * (sx + sy * w) + 3) p.a

/-- The pixel-scatter loop of `Decoder::decompress` (src/lib.rs lines 177–189).  Note
the source computes the target row as `let sy = py;` — the row within the 4-row chunk —
and tests `sx < width && sy < height` with that local `sy`. -/
def writeBlockPixels (w h x : ℕ) (pix : List Pixel) (chunk : List ℕ) : Option (List ℕ) :=
  (List.range 4).foldlM
    (fun ch py =>
      (List.range 4).foldlM
        (fun ch2 px =>
          let sx := 4 * x + px
          let sy := py
          if sx < w ∧ sy < h then
            writeDecodedPixel ch2 w sx sy (pix.getD (px + py * 4) zeroPixel)
          else some ch2)
        ch)
    chunk

/-- One row of `Decoder::decompress` (src/lib.rs lines 170–190): decode `blocks_wide`
blocks from `data` (slicing out of range panics) and scatter each into the row chunk. -/
def decodeRow (dec : List ℕ → Option (List Pixel)) (bs blocksWide : ℕ) (data : List ℕ)
    (w h y : ℕ) (chunk : List ℕ) : Option (List ℕ) :=
  (List.range blocksWide).foldlM
    (fun ch x => do
      let bidx := (x + y * blocksWide) * bs
      let slice := (data.drop bidx).take bs
      if slice.length = bs then do
        let pix ← dec slice
        writeBlockPixels w h x pix ch
      else none)
    chunk

/-- The row loop of `Decoder::decompress`. -/
def decodeRows (dec : List ℕ → Option (List Pixel)) (bs blocksWide : ℕ) (data : List ℕ)
    (w h : ℕ) : ℕ → List (List ℕ) → Option (List ℕ)
  | _, [] => some []
  | y, c :: cs => do
      let r ← decodeRow dec bs blocksWide data w h y c
      let rest ← decodeRows dec bs blocksWide data w h (y + 1) cs
      some (r ++ rest)

/-- src/lib.rs `Decoder::decompress`: chunk the output buffer into rows of
`width * 4 * 4` bytes and decode each row of blocks into it.  `width = 0` makes
`chunks_mut` panic (`none`). -/
def genDecompress (dec : List ℕ → Option (List Pixel)) (bs : ℕ) (data : List ℕ)
    (w h : ℕ) (output : List ℕ) : Option (List ℕ) :=
  let rowBytes := w * 4 * 4
  if rowBytes = 0 then none
  else decodeRows dec bs (numBlocks w) data w h 0 (chunks output rowBytes)

/-- src/bc1.rs `BC1::compress` via the `Encoder` trait driver. -/
def BC1.compress (rgba : List ℕ) (w h : ℕ) (p : Params) (output : List ℕ) :
    Option (List ℕ) :=
  genCompress BC1.compressBlockMasked BC1.blockSize rgba w h p output

/-- src/bc1.rs `BC1::decompress` via the `Decoder` trait driver. -/
def BC1.decompress (data : List ℕ) (w h : ℕ) (output : List ℕ) : Option (List ℕ) :=
  genDecompress BC1.decompressBlock BC1.blockSize data w h output

/-- src/bc2.rs `BC2::decompress` via the `Decoder` trait driver. -/
def BC2.decompress (data : List ℕ) (w h : ℕ) (output : List ℕ) : Option (List ℕ) :=
  genDecompress BC2.decompressBlock BC2.blockSize data w h output

/-- src/bc2.rs `BC2::compress` via the `Encoder` trait driver. -/
def BC2.compress (rgba : List ℕ) (w h : ℕ) (p : Params) (output : List ℕ) :
    Option (List ℕ) :=
  genCompress BC2.compressBlockMasked BC2.blockSize rgba w h p output

/-- src/bc3.rs `BC3::compress` via the `Encoder` trait driver. -/
def BC3.compress (rgba : List ℕ) (w h : ℕ) (p : Params) (output : List ℕ) :
    Option (List ℕ) :=
  genCompress BC3.compressBlockMasked BC3.blockSize rgba w h p output

/-- src/bc4.rs `BC4::compress` via the `Encoder` trait driver. -/
def BC4.compress (rgba : List ℕ) (w h : ℕ) (p : Params) (output : List ℕ) :
    Option (List ℕ) :=
  genCompress BC4.compressBlockMasked BC4.blockSize rgba w h p output

/-- src/bc5.rs `BC5::compress` via the `Encoder` trait driver. -/
def BC5.compress (rgba : List ℕ) (w h : ℕ) (p : Params) (output : List ℕ) :
    Option (List ℕ) :=
  genCompress BC5.compressBlockMasked BC5.blockSize rgba w h p output

/-! ## Concrete test data (src/bc1.rs unit tests and derived inputs) -/

/-- src/bc1.rs `DECODED_BLOCK_GRAY_4X4`: the grayscale checkerboard with the four
middle pixels at 0x7F. -/
def grayVals : List ℕ :=
  [0xFF, 0x00, 0xFF, 0x00, 0x00, 0x7F, 0x7F, 0xFF, 0xFF, 0x7F, 0x7F, 0x00,
   0x00, 0xFF, 0x00, 0xFF]

/-- src/bc1.rs `decoded_block_gray_4x4_as_rgba`: each value expanded to (v,v,v,255). -/
def grayRgba : List ℕ := grayVals.flatMap fun v => [v, v, v, 255]

/-- The reference BC1 encoding `00 00 FF FF 11 68 29 44` of the grayscale tile. -/
def grayBlock : List ℕ := [0x00, 0x00, 0xFF, 0xFF, 0x11, 0x68, 0x29, 0x44]

/-- The grayscale tile as pixels. -/
def grayTile : List Pixel := grayVals.map fun v => ⟨v, v, v, 255⟩

/-- `Params` with `COLOUR_WEIGHTS_UNIFORM` and `weigh_colour_by_alpha = false`. -/
def uniformParams (a : Algorithm) : Params := ⟨a, (1, 1, 1), false⟩

/-- A gradient-alpha block with endpoints 255, 0 and all indices 0: every decoded
value is 255. -/
def alphaFullBlock : List ℕ := [255, 0, 0, 0, 0, 0, 0, 0]

/-- A BC5 block decoding channel 0 to 255 and channel 1 to 0 everywhere. -/
def bc5FailBlock : List ℕ :=
  [255, 0, 0, 0, 0, 0, 0, 0, 0, 0, 0, 0, 0, 0, 0, 0]

/-- An all-zero 16-byte block (both BC5 channels decode to 0). -/
def bc5ZeroBlock : List ℕ := List.replicate 16 0

/-- A BC2 block whose colour half has endpoint0 = 0x0000 ≤ endpoint1 = 0xFFFF and all
colour indices 2, with all alpha nibbles 0xF. -/
def bc2FailBlock : List ℕ :=
  [255, 255, 255, 255, 255, 255, 255, 255, 0, 0, 255, 255, 0xAA, 0xAA, 0xAA, 0xAA]

/-- A BC3 block with the same colour half and a full-opacity alpha half. -/
def bc3FailBlock : List ℕ :=
  [255, 0, 0, 0, 0, 0, 0, 0, 0, 0, 255, 255, 0xAA, 0xAA, 0xAA, 0xAA]

/-- A 5×1 all-white RGBA image. -/
def whiteImage5x1 : List ℕ := List.replicate 20 255

/-- What `BC1::compress` of the grayscale tile produces in a 16-byte output buffer:
the image's block followed by the all-masked-out block of the spurious second chunk. -/
def c9Out : List ℕ := grayBlock ++ [0, 0, 0, 0, 255, 255, 255, 255]

/-! ## Helper lemmas -/

theorem ceil_div_four (n : ℕ) : ⌈(n : ℚ) / 4⌉ = (((n + 3) / 4 : ℕ) : ℤ) := by
  rw [Int.ceil_eq_iff]
  constructor
  · have hq : ((n + 3) / 4) * 4 < n + 4 := by omega
    have c : ((((n + 3) / 4 : ℕ) : ℤ) : ℚ) * 4 < (n : ℚ) + 4 := by exact_mod_cast hq
    rw [sub_lt_iff_lt_add, show (n : ℚ) / 4 + 1 = ((n : ℚ) + 4) / 4 by ring,
      lt_div_iff₀ (by norm_num : (0 : ℚ) < 4)]
    exact c
  · have hq : n ≤ ((n + 3) / 4) * 4 := by omega
    have c : (n : ℚ) ≤ ((((n + 3) / 4 : ℕ) : ℤ) : ℚ) * 4 := by exact_mod_cast hq
    rw [div_le_iff₀ (by norm_num : (0 : ℚ) < 4)]
    exact c

theorem colourblockPack_length (a b : ℕ) (idx : List ℕ) (three : Bool) :
    (colourblockPack a b idx three).length = 8 := by
  unfold colourblockPack
  cases three <;> split_ifs <;> rfl

theorem rangeFitCompress_length (s : ColourSet) (isBc1 : Bool) (metric : Q × Q × Q) :
    (rangeFitCompress s isBc1 metric).length = 8 := by
  unfold rangeFitCompress
  split
  · exact colourblockPack_length ..
  · dsimp only
    split <;> exact colourblockPack_length ..

theorem clusterFitCompress_length (s : ColourSet) (isBc1 : Bool) (metric : Q × Q × Q)
    (iterate : Bool) : (clusterFitCompress s isBc1 metric iterate).length = 8 := by
  unfold clusterFitCompress
  split
  · exact rangeFitCompress_length ..
  · dsimp only
    split
    · exact rangeFitCompress_length ..
    · exact colourblockPack_length ..

theorem singleColourFit_length (s : ColourSet) (isBc1 : Bool) :
    (singleColourFit s isBc1).length = 8 := by
  unfold singleColourFit
  dsimp only
  split <;> exact colourblockPack_length ..

theorem compressColourBlock_length (rgba : List Pixel) (mask : ℕ) (p : Params)
    (isBc1 : Bool) : (compressColourBlock rgba mask p isBc1).length = 8 := by
  unfold compressColourBlock
  dsimp only
  split
  · exact singleColourFit_length ..
  · exact rangeFitCompress_length ..
  · exact clusterFitCompress_length ..

theorem alphaCompressBc3_length (rgba : List Pixel) (channel mask : ℕ) :
    (alphaCompressBc3 rgba channel mask).length = 8 := by
  simp [alphaCompressBc3]

theorem alphaCompressBc2_length (rgba : List Pixel) (mask : ℕ) :
    (alphaCompressBc2 rgba mask).length = 8 := by
  simp [alphaCompressBc2]

theorem bc1BlockMasked_length (rgba : List Pixel) (mask : ℕ) (p : Params) :
    (BC1.compressBlockMasked rgba mask p).length = BC1.blockSize :=
  compressColourBlock_length ..

theorem bc2BlockMasked_length (rgba : List Pixel) (mask : ℕ) (p : Params) :
    (BC2.compressBlockMasked rgba mask p).length = BC2.blockSize := by
  unfold BC2.compressBlockMasked
  rw [List.length_append, alphaCompressBc2_length, compressColourBlock_length]
  rfl

theorem bc3BlockMasked_length (rgba : List Pixel) (mask : ℕ) (p : Params) :
    (BC3.compressBlockMasked rgba mask p).length = BC3.blockSize := by
  unfold BC3.compressBlockMasked
  rw [List.length_append, alphaCompressBc3_length, compressColourBlock_length]
  rfl

theorem bc4BlockMasked_length (rgba : List Pixel) (mask : ℕ) (p : Params) :
    (BC4.compressBlockMasked rgba mask p).length = BC4.blockSize :=
  alphaCompressBc3_length ..

theorem bc5BlockMasked_length (rgba : List Pixel) (mask : ℕ) (p : Params) :
    (BC5.compressBlockMasked rgba mask p).length = BC5.blockSize := by
  unfold BC5.compressBlockMasked
  rw [List.length_append, alphaCompressBc3_length, alphaCompressBc3_length]
  rfl

theorem chunksAux_full (k : ℕ) (hk : 0 < k) :
    ∀ (n fuel : ℕ) (l : List ℕ), l.length = n * k → l.length ≤ fuel →
      (chunksAux k fuel l).length = n ∧ ∀ c ∈ chunksAux k fuel l, c.length = k := by
  intro n
  induction n with
  | zero =>
      intro fuel l hl _
      have hnil : l = [] := List.eq_nil_of_length_eq_zero (by simpa using hl)
      subst hnil
      cases fuel <;> simp [chunksAux]
  | succ n ih =>
      intro fuel l hl hf
      have hklen : k ≤ l.length := by
        rw [hl, Nat.succ_mul]
        omega
      have hlpos : 0 < l.length := lt_of_lt_of_le hk hklen
      obtain ⟨a, l2, rfl⟩ : ∃ a l2, l = a :: l2 := by
        cases l with
        | nil => simp at hlpos
        | cons a l2 => exact ⟨a, l2, rfl⟩
      cases fuel with
      | zero => omega
      | succ f =>
          have hdrop : ((a :: l2).drop k).length = n * k := by
            rw [List.length_drop, hl, Nat.succ_mul]
            omega
          have hfuel : ((a :: l2).drop k).length ≤ f := by
            rw [List.length_drop]
            omega
          obtain ⟨hn, hc⟩ := ih f ((a :: l2).drop k) hdrop hfuel
          have htake : ((a :: l2).take k).length = k := by
            rw [List.length_take]
            omega
          refine ⟨?_, ?_⟩
          · simp [chunksAux, hn]
          · intro c hc2
            simp only [chunksAux, List.mem_cons] at hc2
            rcases hc2 with rfl | hc2
            · exact htake
            · exact hc c hc2

theorem chunks_full (k n : ℕ) (hk : 0 < k) (l : List ℕ) (hl : l.length = n * k) :
    (chunks l k).length = n ∧ ∀ c ∈ chunks l k, c.length = k :=
  chunksAux_full k hk n l.length l hl le_rfl

theorem encodeBlocks_some (enc : List Pixel → ℕ → Params → List ℕ) (bs : ℕ)
    (rgba : List ℕ) (w h y : ℕ) (p : Params)
    (henc : ∀ t m q, (enc t m q).length = bs) :
    ∀ (cs : List (List ℕ)) (x : ℕ), (∀ c ∈ cs, c.length = bs) →
      ∃ r, encodeBlocks enc bs rgba w h y p x cs = some r ∧ r.length = cs.length * bs := by
  intro cs
  induction cs with
  | nil => exact fun x _ => ⟨[], rfl, by simp⟩
  | cons c cs ih =>
      intro x hc
      obtain ⟨r, hr, hlen⟩ := ih (x + 1) fun d hd => hc d (List.mem_cons_of_mem _ hd)
      refine ⟨enc (tileAt rgba w h y x) (maskAt w h y x) p ++ r, ?_, ?_⟩
      · simp [encodeBlocks, hc c (List.mem_cons_self _ _), hr]
      · rw [List.length_append, henc, hlen, List.length_cons, Nat.succ_mul]
        omega

theorem encodeRows_some (enc : List Pixel → ℕ → Params → List ℕ) (bs : ℕ)
    (rgba : List ℕ) (w h : ℕ) (p : Params) (nbw : ℕ)
    (henc : ∀ t m q, (enc t m q).length = bs) (hbs : 0 < bs) :
    ∀ (cs : List (List ℕ)) (y : ℕ), (∀ c ∈ cs, c.length = nbw * bs) →
      ∃ r, encodeRows enc bs rgba w h p y cs = some r ∧
        r.length = cs.length * (nbw * bs) := by
  intro cs
  induction cs with
  | nil => exact fun y _ => ⟨[], rfl, by simp⟩
  | cons c cs ih =>
      intro y hc
      obtain ⟨hn, hcs⟩ := chunks_full bs nbw hbs c (hc c (List.mem_cons_self _ _))
      obtain ⟨r1, hr1, hl1⟩ := encodeBlocks_some enc bs rgba w h y p henc (chunks c bs) 0 hcs
      obtain ⟨r2, hr2, hl2⟩ := ih (y + 1) fun d hd => hc d (List.mem_cons_of_mem _ hd)
      refine ⟨r1 ++ r2, ?_, ?_⟩
      · simp [encodeRows, hr1, hr2]
      · rw [List.length_append, hl1, hn, hl2, List.length_cons, Nat.succ_mul]
        omega

theorem zipWith_pres {α : Type} (P : Pixel → Prop) (f : Pixel → α → Pixel)
    (hf : ∀ p a, P p → P (f p a)) :
    ∀ (l : List Pixel) (vs : List α), (∀ p ∈ l, P p) →
      ∀ q ∈ List.zipWith f l vs, P q := by
  intro l
  induction l with
  | nil => intro vs _ q hq; simp at hq
  | cons p ps ih =>
      intro vs hl q hq
      cases vs with
      | nil => simp at hq
      | cons v vs =>
          simp only [List.zipWith, List.mem_cons] at hq
          rcases hq with rfl | hq
          · exact hf _ _ (hl _ (List.mem_cons_self _ _))
          · exact ih vs (fun r hr => hl r (List.mem_cons_of_mem _ hr)) q hq

theorem maskTest_bitsToNat (l : List Bool) : ∀ i, maskTest (bitsToNat l) i = l.getD i false := by
  induction l with
  | nil =>
      intro i
      simp [bitsToNat, maskTest, Nat.zero_shiftRight]
  | cons b bs ih =>
      intro i
      cases i with
      | zero =>
          cases b <;> simp [bitsToNat, maskTest, Nat.shiftRight]
      | succ i =>
          have hs : bitsToNat (b :: bs) >>> (i + 1) = bitsToNat bs >>> i := by
            rw [Nat.shiftRight_eq_div_pow, Nat.shiftRight_eq_div_pow, pow_succ,
              Nat.mul_comm (2 ^ i) 2, ← Nat.div_div_eq_div_mul]
            congr 1
            simp only [bitsToNat]
            cases b
            · simp
            · show (1 + 2 * bitsToNat bs) / 2 = bitsToNat bs
              omega
          have hgd : (b :: bs).getD (i + 1) false = bs.getD i false := rfl
          rw [hgd, ← ih i]
          unfold maskTest
          rw [hs]

theorem getD_map_range {α : Type} (f : ℕ → α) (n i : ℕ) (d : α) (h : i < n) :
    ((List.range n).map f).getD i d = f i := by
  rw [List.getD_eq_getElem?_getD, List.getElem?_map, List.getElem?_range h]
  rfl

theorem maskAt_inImage (w h y x i : ℕ) (h16 : i < 16) :
    maskTest (maskAt w h y x) i = inImage w h y x i := by
  unfold maskAt
  rw [maskTest_bitsToNat, getD_map_range _ _ _ _ h16]

theorem tileFor_getD (prev : List Pixel) (rgba : List ℕ) (w h y x i : ℕ) (h16 : i < 16) :
    (tileFor prev rgba w h y x).getD i zeroPixel =
      if inImage w h y x i then srcPixel rgba w y x i else prev.getD i zeroPixel := by
  unfold tileFor
  rw [getD_map_range _ _ _ _ h16]

theorem chooseFitter_spec (c : ℕ) (a : Algorithm) :
    (c = 1 → chooseFitter c a = .single) ∧
    (c ≠ 1 → (a = .rangeFit ∨ c = 0) → chooseFitter c a = .range) ∧
    (c ≠ 1 → a ≠ .rangeFit → c ≠ 0 →
      chooseFitter c a = .cluster (decide (a = .iterativeClusterFit))) := by
  unfold chooseFitter
  refine ⟨fun h => by simp [h], fun h1 h2 => ?_, fun h1 h2 h3 => ?_⟩
  · rw [if_neg h1, if_pos h2]
  · rw [if_neg h1, if_neg (by tauto)]

set_option maxRecDepth 100000

/-! ## Claim theorems -/

/-- C1: BC1 coding of the grayscale checkerboard is bit-exact to the reference:
decompressing the block `00 00 FF FF 11 68 29 44` as a 4×4 image yields exactly the
16 RGBA pixels `(v, v, v, 255)` of the checkerboard, and compressing that image with
uniform weights, `weigh_colour_by_alpha = false` and each of the three algorithms
yields exactly those 8 bytes. -/
theorem C1_bc1_gray_bit_exact :
    BC1.decompress grayBlock 4 4 (List.replicate 64 0) = some grayRgba ∧
    BC1.compress grayRgba 4 4 (uniformParams .rangeFit) (List.replicate 8 0) =
      some grayBlock ∧
    BC1.compress grayRgba 4 4 (uniformParams .clusterFit) (List.replicate 8 0) =
      some grayBlock ∧
    BC1.compress grayRgba 4 4 (uniformParams .iterativeClusterFit) (List.replicate 8 0) =
      some grayBlock := by
  decide

/-- C2: every format's `compressed_size(w, h)` equals `⌈w/4⌉·⌈h/4⌉·block_size()`, with
`block_size()` 8 for BC1/BC4 and 16 for BC2/BC3/BC5. -/
theorem C2_compressed_size_law (w h : ℕ) :
    BC1.blockSize = 8 ∧ BC4.blockSize = 8 ∧ BC2.blockSize = 16 ∧ BC3.blockSize = 16 ∧
    BC5.blockSize = 16 ∧
    (compressedSize BC1.blockSize w h : ℤ) =
      ⌈(w : ℚ) / 4⌉ * ⌈(h : ℚ) / 4⌉ * BC1.blockSize ∧
    (compressedSize BC2.blockSize w h : ℤ) =
      ⌈(w : ℚ) / 4⌉ * ⌈(h : ℚ) / 4⌉ * BC2.blockSize ∧
    (compressedSize BC3.blockSize w h : ℤ) =
      ⌈(w : ℚ) / 4⌉ * ⌈(h : ℚ) / 4⌉ * BC3.blockSize ∧
    (compressedSize BC4.blockSize w h : ℤ) =
      ⌈(w : ℚ) / 4⌉ * ⌈(h : ℚ) / 4⌉ * BC4.blockSize ∧
    (compressedSize BC5.blockSize w h : ℤ) =
      ⌈(w : ℚ) / 4⌉ * ⌈(h : ℚ) / 4⌉ * BC5.blockSize := by
  have key : ∀ bs : ℕ,
      (compressedSize bs w h : ℤ) = ⌈(w : ℚ) / 4⌉ * ⌈(h : ℚ) / 4⌉ * bs := by
    intro bs
    unfold compressedSize numBlocks
    rw [ceil_div_four, ceil_div_four]
    push_cast
    ring
  exact ⟨rfl, rfl, rfl, rfl, rfl, key _, key _, key _, key _, key _⟩

/-- C3 (code bug): evaluating the decoder at the failing input.  Decompressing a valid
16-byte BC1 stream for a 4×5 image into the exact 80-byte output buffer aborts on an
out-of-bounds write (the source computes the target row as the chunk-local `sy = py`
and checks `sy < height`, so row 1 of the final 1-row chunk is not dropped) instead of
completing and dropping the pixels with `sy ≥ height`. -/
theorem C3_decompress_oob_at_4x5 :
    BC1.decompress (List.replicate 16 0) 4 5 (List.replicate 80 0) = none := by
  decide

/-- C4 (code bug): evaluating `BC4::decompress_block` at the failing input — the block
with endpoints 255, 0 and all indices 0 decodes every pixel to `(255, 0, 0, 0)`: the
splat loop mutates a by-value copy, so G and B stay 0 instead of replicating R, and
alpha is never set, so A = 0 instead of 255. -/
theorem C4_bc4_decode_at_failing_input :
    BC4.decompressBlock alphaFullBlock = some (List.replicate 16 ⟨255, 0, 0, 0⟩) := by
  decide

/-- C5 counterexample: the claim "every decoded BC5 pixel satisfies B = 0 and A = 255"
is false at the 16-byte block `FF 00 00…`, whose pixels all decode to
`(255, 0, 0, 0)` with A = 0. -/
theorem C5_counterexample :
    ¬ (∀ out, BC5.decompressBlock bc5FailBlock = some out →
        ∀ p ∈ out, p.b = 0 ∧ p.a = 255) := by
  intro hcl
  have hdec : BC5.decompressBlock bc5FailBlock =
      some (List.replicate 16 ⟨255, 0, 0, 0⟩) := by decide
  have hmem : (⟨255, 0, 0, 0⟩ : Pixel) ∈ List.replicate 16 (⟨255, 0, 0, 0⟩ : Pixel) := by
    decide
  exact absurd (hcl _ hdec _ hmem).2 (by decide)

/-- C5 as amended: for every 16-byte input block, every pixel of the 4×4 output of
`BC5::decompress_block` satisfies B = 0 and A = 0 (the decoder writes only channels 0
and 1 of the zero-initialised tile; alpha is never set). -/
theorem C5_amended_b_zero_a_zero (block : List ℕ) (out : List Pixel)
    (hdec : BC5.decompressBlock block = some out) : ∀ p ∈ out, p.b = 0 ∧ p.a = 0 := by
  unfold BC5.decompressBlock at hdec
  split_ifs at hdec
  cases Option.some.inj hdec
  unfold alphaDecompressBc3
  dsimp only
  apply zipWith_pres
  · intro p a hp
    exact hp
  · apply zipWith_pres
    · intro p a hp
      exact hp
    · intro p hp
      rw [List.eq_of_mem_replicate hp]
      exact ⟨rfl, rfl⟩

/-- Witness for C5: the amended theorem applied to the all-zero block and its first
decoded pixel. -/
theorem C5_witness : (⟨0, 0, 0, 0⟩ : Pixel).b = 0 ∧ (⟨0, 0, 0, 0⟩ : Pixel).a = 0 :=
  C5_amended_b_zero_a_zero bc5ZeroBlock (List.replicate 16 ⟨0, 0, 0, 0⟩) (by decide)
    ⟨0, 0, 0, 0⟩ (by decide)

/-- C6 (code bug): evaluating the decoders at the failing input.  A BC2 (and BC3)
block whose colour half has endpoint0 = 0x0000 ≤ endpoint1 = 0xFFFF and all colour
indices 2 decodes to RGB `(127, 127, 127)` — the three-colour `(p0+p1)/2` entry,
because the source passes `true` for the colourblock's `is_bc1` argument — whereas
four-colour-only decoding mandates palette entry 2 = `(2·p0+p1)/3 = (85, 85, 85)`
(third conjunct). -/
theorem C6_bc2_bc3_three_colour_decode :
    BC2.decompressBlock bc2FailBlock = some (List.replicate 16 ⟨127, 127, 127, 255⟩) ∧
    BC3.decompressBlock bc3FailBlock = some (List.replicate 16 ⟨127, 127, 127, 255⟩) ∧
    (palette4 (unpack565 0x0000) (unpack565 0xFFFF)).getD 2 zeroPixel =
      ⟨85, 85, 85, 255⟩ := by
  decide

/-- C7 counterexample: compressing the 5×1 all-white image, tile position 1 of block
(x, y) = (1, 0) has a clear mask bit but holds the white pixel left over from block 0,
not zero. -/
theorem C7_counterexample :
    maskTest (maskAt 5 1 0 1) 1 = false ∧
    (tileAt whiteImage5x1 5 1 0 1).getD 1 zeroPixel = ⟨255, 255, 255, 255⟩ ∧
    (⟨255, 255, 255, 255⟩ : Pixel) ≠ zeroPixel := by
  decide

/-- C7 as amended: a tile position whose mask bit is clear is zero in the first block
of a row of blocks, and in every later block it holds the value left there by the
previous block of the same row; in-image positions carry source data. -/
theorem C7_amended_stale_tile (rgba : List ℕ) (w h y i : ℕ) (h16 : i < 16) :
    (maskTest (maskAt w h y 0) i = false →
      (tileAt rgba w h y 0).getD i zeroPixel = zeroPixel) ∧
    ((maskTest (maskAt w h y 0) i = true →
      (tileAt rgba w h y 0).getD i zeroPixel = srcPixel rgba w y 0 i)) ∧
    ∀ x, (maskTest (maskAt w h y (x + 1)) i = false →
      (tileAt rgba w h y (x + 1)).getD i zeroPixel =
        (tileAt rgba w h y x).getD i zeroPixel) ∧
      (maskTest (maskAt w h y (x + 1)) i = true →
        (tileAt rgba w h y (x + 1)).getD i zeroPixel = srcPixel rgba w y (x + 1) i) := by
  refine ⟨?_, ?_, fun x => ⟨?_, ?_⟩⟩
  · intro hm
    rw [maskAt_inImage _ _ _ _ _ h16] at hm
    show (tileFor (List.replicate 16 zeroPixel) rgba w h y 0).getD i zeroPixel = zeroPixel
    rw [tileFor_getD _ _ _ _ _ _ _ h16, hm, if_neg Bool.false_ne_true,
      List.getD_eq_getElem?_getD, List.getElem?_replicate]
    split <;> rfl
  · intro hm
    rw [maskAt_inImage _ _ _ _ _ h16] at hm
    show (tileFor (List.replicate 16 zeroPixel) rgba w h y 0).getD i zeroPixel = _
    rw [tileFor_getD _ _ _ _ _ _ _ h16, hm, if_pos rfl]
  · intro hm
    rw [maskAt_inImage _ _ _ _ _ h16] at hm
    show (tileFor (tileAt rgba w h y x) rgba w h y (x + 1)).getD i zeroPixel = _
    rw [tileFor_getD _ _ _ _ _ _ _ h16, hm, if_neg Bool.false_ne_true]
  · intro hm
    rw [maskAt_inImage _ _ _ _ _ h16] at hm
    show (tileFor (tileAt rgba w h y x) rgba w h y (x + 1)).getD i zeroPixel = _
    rw [tileFor_getD _ _ _ _ _ _ _ h16, hm, if_pos rfl]

/-- Witness for C7: position 1 of block 1 of the 5×1 white image is masked out and
keeps block 0's pixel. -/
theorem C7_witness :
    (tileAt whiteImage5x1 5 1 0 1).getD 1 zeroPixel =
      (tileAt whiteImage5x1 5 1 0 0).getD 1 zeroPixel :=
  ((C7_amended_stale_tile whiteImage5x1 5 1 0 1 (by decide)).2.2 0).1 (by decide)

/-- C8: the colour fitter of the shared BC1/BC2/BC3 colour-block encoder is selected
exactly as the claim states: `SingleColourFit` when the colour set built from the tile
has exactly one entry; `RangeFit` when the algorithm is RangeFit or the set is empty;
otherwise `ClusterFit`, iterative exactly for `IterativeClusterFit`. -/
theorem C8_fitter_selection (rgba : List Pixel) (mask : ℕ) (p : Params) (isBc1 : Bool) :
    ((ColourSet.new rgba mask isBc1 p.weighColourByAlpha).count = 1 →
      chooseFitter (ColourSet.new rgba mask isBc1 p.weighColourByAlpha).count
        p.algorithm = .single) ∧
    ((ColourSet.new rgba mask isBc1 p.weighColourByAlpha).count ≠ 1 →
      (p.algorithm = .rangeFit ∨
        (ColourSet.new rgba mask isBc1 p.weighColourByAlpha).count = 0) →
      chooseFitter (ColourSet.new rgba mask isBc1 p.weighColourByAlpha).count
        p.algorithm = .range) ∧
    ((ColourSet.new rgba mask isBc1 p.weighColourByAlpha).count ≠ 1 →
      p.algorithm ≠ .rangeFit →
      (ColourSet.new rgba mask isBc1 p.weighColourByAlpha).count ≠ 0 →
      chooseFitter (ColourSet.new rgba mask isBc1 p.weighColourByAlpha).count
        p.algorithm = .cluster (decide (p.algorithm = .iterativeClusterFit))) :=
  chooseFitter_spec _ _

/-- Witness for C8: the grayscale tile has 3 colour-set entries, so ClusterFit without
iteration is selected for the ClusterFit algorithm. -/
theorem C8_witness :
    chooseFitter (ColourSet.new grayTile 65535 true false).count Algorithm.clusterFit =
      FitterChoice.cluster false :=
  (C8_fitter_selection grayTile 65535 (uniformParams .clusterFit) true).2.2
    (by decide) (by decide) (by decide)

/-- C9 counterexample: with a 16-byte output buffer (compressed size is 8), BC1
compression of the 4×4 grayscale image also overwrites bytes 8..16 — the spurious
second chunk receives the all-masked-out block — so the byte at offset 8 is not
unchanged. -/
theorem C9_counterexample :
    compressedSize BC1.blockSize 4 4 = 8 ∧
    BC1.compress grayRgba 4 4 (uniformParams .clusterFit) (List.replicate 16 0xAA) =
      some c9Out ∧
    c9Out.getD 8 0 ≠ (List.replicate 16 (0xAA : ℕ)).getD 8 0 := by
  decide

/-- C9 as amended: for every block encoder and every output buffer of length exactly
`compressed_size(w, h)` (`w > 0`), compress completes, writes only those bytes (the
result keeps the buffer's length) and no byte at an offset ≥ `compressed_size` exists
or changes; buffers longer than `compressed_size` are also written beyond it. -/
theorem C9_amended_exact_buffer (enc : List Pixel → ℕ → Params → List ℕ) (bs : ℕ)
    (rgba : List ℕ) (w h : ℕ) (p : Params) (output : List ℕ)
    (henc : ∀ t m q, (enc t m q).length = bs) (hw : 0 < w) (hbs : 0 < bs)
    (hlen : output.length = compressedSize bs w h) :
    (genCompress enc bs rgba w h p output).map List.length = some output.length ∧
    ∀ i, output.length ≤ i →
      (genCompress enc bs rgba w h p output).bind (fun r => r.get? i) =
        output.get? i := by
  have hnbw : 0 < numBlocks w := by unfold numBlocks; omega
  have hrow : 0 < numBlocks w * bs := Nat.mul_pos hnbw hbs
  have hsize : output.length = numBlocks h * (numBlocks w * bs) := by
    rw [hlen]; unfold compressedSize; ring
  obtain ⟨hn, hc⟩ := chunks_full (numBlocks w * bs) (numBlocks h) hrow output hsize
  obtain ⟨r, hr, hlr⟩ := encodeRows_some enc bs rgba w h p (numBlocks w) henc hbs
    (chunks output (numBlocks w * bs)) 0 hc
  have hgen : genCompress enc bs rgba w h p output = some r := by
    unfold genCompress
    rw [if_neg (by omega), if_neg (by omega)]
    exact hr
  have hlen2 : r.length = output.length := by rw [hlr, hn, ← hsize]
  refine ⟨?_, fun i hi => ?_⟩
  · rw [hgen]
    exact congrArg some hlen2
  · rw [hgen]
    show r.get? i = output.get? i
    rw [List.get?_eq_none.mpr (by omega), List.get?_eq_none.mpr hi]

/-- Witness for C9: BC1 compression of the grayscale tile into an exactly-sized
8-byte buffer writes exactly those 8 bytes. -/
theorem C9_witness :
    (genCompress BC1.compressBlockMasked 8 grayRgba 4 4 (uniformParams .clusterFit)
      (List.replicate 8 0)).map List.length = some 8 :=
  (C9_amended_exact_buffer BC1.compressBlockMasked 8 grayRgba 4 4
    (uniformParams .clusterFit) (List.replicate 8 0)
    (fun t m q => bc1BlockMasked_length t m q) (by decide) (by decide) (by decide)).1

/-- C10: BC4 and BC5 block compression is independent of the `Params` argument (the
source ignores `_params`; the alpha encoder takes no parameters). -/
theorem C10_bc4_bc5_params_independent (rgba : List Pixel) (mask : ℕ) (p q : Params) :
    BC4.compressBlockMasked rgba mask p = BC4.compressBlockMasked rgba mask q ∧
    BC5.compressBlockMasked rgba mask p = BC5.compressBlockMasked rgba mask q :=
  ⟨rfl, rfl⟩

end Squish
